import Mathlib

/-! Verification of the frame-extraction and paced-streaming core of the
Google-Trends-SVG-Viewer application (`app.py`).

A frame asset is modelled as the list of lines Python's file iteration
yields, each line a `List Char` (trailing newline characters included).
Wall-clock time is modelled by exact rationals; successive results of
`time.time()` are supplied by an ambient `clock : ℕ → ℚ` stream consumed
in call order.  The file system is a partial map from frame numbers to
file contents; `none` models a missing or unreadable asset, whereupon
`open` raises (`FrameAssetUnavailable`). -/

/-- The start marker searched for by `get_path` (the test `'d="M' in line`). -/
def START : List Char := "d=\"M".toList

/-- The end marker searched for by `get_path` (the test `'z"' in line`). -/
def ENDM : List Char := "z\"".toList

/-- Python's substring test `m in line`, as infix containment on character lists. -/
def containsSub (m l : List Char) : Bool := decide (m <:+: l)

/-- State of the scanning loop of `get_path`: current line index `i`, the
recorded `start` and `end` offsets (both initialised to the sentinel `0`),
and the accumulated list of lines `p_lines`. -/
structure ScanState where
  i : ℕ
  start : ℕ
  end_ : ℕ
  p_lines : List (List Char)

/-- One iteration of the scanning loop in `get_path`: `start` is overwritten
with the current 0-based line index on every line containing the start
marker, `i` is incremented, `end` is overwritten with the already
incremented index (line index + 1) on every line containing the end marker,
and the line is appended to `p_lines`. -/
def scanLine (s : ScanState) (line : List Char) : ScanState :=
  let s1 := if containsSub START line then { s with start := s.i } else s
  let s2 := { s1 with i := s1.i + 1 }
  let s3 := if containsSub ENDM line then { s2 with end_ := s2.i } else s2
  { s3 with p_lines := s3.p_lines ++ [line] }

/-- The whole scan of a file, from `i = 0`, `start = 0`, `end = 0`, `p_lines = []`. -/
def scanFile (ls : List (List Char)) : ScanState :=
  ls.foldl scanLine ⟨0, 0, 0, []⟩

/-- The character replacement performed by `.replace('\n', ' ')`. -/
def collapseNL (c : Char) : Char := if c = '\n' then ' ' else c

/-- The asset directory (`svg_dir = 'svgs'`). -/
def svg_dir : List Char := "svgs".toList

/-- The diagnostic printed by `get_path` when the marker guard fails:
`"Path data not found for " + svg.name` where `svg.name` is `svgs/<n>.svg`. -/
def diagMsg (n : ℕ) : List Char :=
  "Path data not found for ".toList ++ svg_dir ++ "/".toList
    ++ (toString n).toList ++ ".svg".toList

/-- The function `get_path(file_num)` applied to a file whose lines are
`ls`: scan the
lines, then if `start != 0 and end != 0` return the slice
`p_lines[start:end]` joined with newlines replaced by spaces (and no
diagnostic); otherwise return the empty string together with the single
not-found diagnostic. -/
def get_path (file_num : ℕ) (ls : List (List Char)) :
    List Char × List (List Char) :=
  let s := scanFile ls
  if s.start ≠ 0 ∧ s.end_ ≠ 0 then
    (((s.p_lines.drop s.start).take (s.end_ - s.start)).join.map collapseNL, [])
  else
    ([], [diagMsg file_num])

/-- Running `get_path` behind the file system: `none` models `open` raising
(`FrameAssetUnavailable`); `some` carries `get_path`'s return value paired
with the diagnostics it printed. -/
def get_pathF (fsys : ℕ → Option (List (List Char))) (n : ℕ) :
    Option (List Char × List (List Char)) :=
  match fsys n with
  | none => none
  | some ls => some (get_path n ls)

/-- Index of the last line of the file satisfying `p`, if any. -/
def lastIdxWhere (p : List Char → Bool) : List (List Char) → Option ℕ
  | [] => none
  | l :: ls =>
    match lastIdxWhere p ls with
    | some j => some (j + 1)
    | none => if p l then some 0 else none

theorem foldl_scanLine (ls : List (List Char)) :
    ∀ (i st en : ℕ) (acc : List (List Char)),
    ls.foldl scanLine ⟨i, st, en, acc⟩ =
      ⟨i + ls.length,
       (match lastIdxWhere (containsSub START) ls with
        | some j => i + j
        | none => st),
       (match lastIdxWhere (containsSub ENDM) ls with
        | some j => i + j + 1
        | none => en),
       acc ++ ls⟩ := by
  induction ls with
  | nil => intro i st en acc; simp [lastIdxWhere]
  | cons l ls ih =>
    intro i st en acc
    have hstep : scanLine ⟨i, st, en, acc⟩ l =
        ⟨i + 1, if containsSub START l then i else st,
         if containsSub ENDM l then i + 1 else en, acc ++ [l]⟩ := by
      simp only [scanLine]
      cases containsSub START l <;> cases containsSub ENDM l <;> simp
    rw [List.foldl_cons, hstep, ih]
    simp only [lastIdxWhere]
    cases h1 : lastIdxWhere (containsSub START) ls <;>
      cases h2 : lastIdxWhere (containsSub ENDM) ls <;>
      cases hS : containsSub START l <;>
      cases hE : containsSub ENDM l <;>
      simp [h1, h2, hS, hE] <;> omega

theorem scanFile_eq (ls : List (List Char)) :
    scanFile ls =
      ⟨ls.length,
       (match lastIdxWhere (containsSub START) ls with
        | some j => j
        | none => 0),
       (match lastIdxWhere (containsSub ENDM) ls with
        | some j => j + 1
        | none => 0),
       ls⟩ := by
  unfold scanFile
  rw [foldl_scanLine]
  cases lastIdxWhere (containsSub START) ls <;>
    cases lastIdxWhere (containsSub ENDM) ls <;> simp

theorem lastIdxWhere_spec {p : List Char → Bool} :
    ∀ {ls : List (List Char)} {j : ℕ}, lastIdxWhere p ls = some j →
      j < ls.length ∧ p (ls.getD j []) = true := by
  intro ls
  induction ls with
  | nil => intro j h; simp [lastIdxWhere] at h
  | cons l ls ih =>
    intro j h
    simp only [lastIdxWhere] at h
    cases h1 : lastIdxWhere p ls with
    | some j' =>
      rw [h1] at h
      simp at h
      obtain ⟨hlen, hp⟩ := ih h1
      subst h
      exact ⟨by simpa using Nat.succ_lt_succ hlen, by simpa using hp⟩
    | none =>
      rw [h1] at h
      cases hl : p l with
      | true =>
        simp [hl] at h
        subst h
        exact ⟨Nat.succ_pos _, by simpa using hl⟩
      | false => simp [hl] at h

theorem lastIdxWhere_eq_none {p : List Char → Bool} :
    ∀ {ls : List (List Char)},
      lastIdxWhere p ls = none ↔ ∀ l ∈ ls, p l = false := by
  intro ls
  induction ls with
  | nil => simp [lastIdxWhere]
  | cons l ls ih =>
    simp only [lastIdxWhere]
    cases h1 : lastIdxWhere p ls with
    | some j' => simp [← ih, h1]
    | none =>
      by_cases hl : p l = true
      · simp [hl]
      · simp only [if_neg hl]
        simp only [Bool.not_eq_true] at hl
        simp [hl, ← ih, h1]

theorem scanFile_start (ls : List (List Char)) {a : ℕ}
    (ha : lastIdxWhere (containsSub START) ls = some a) :
    (scanFile ls).start = a := by
  rw [scanFile_eq, ha]

theorem scanFile_start_none (ls : List (List Char))
    (ha : lastIdxWhere (containsSub START) ls = none) :
    (scanFile ls).start = 0 := by
  rw [scanFile_eq, ha]

theorem scanFile_end (ls : List (List Char)) {b : ℕ}
    (hb : lastIdxWhere (containsSub ENDM) ls = some b) :
    (scanFile ls).end_ = b + 1 := by
  rw [scanFile_eq, hb]

theorem scanFile_p_lines (ls : List (List Char)) :
    (scanFile ls).p_lines = ls := by
  rw [scanFile_eq]

theorem getD_mem_take_drop (ls : List (List Char)) :
    ∀ (a k : ℕ), a < ls.length → 0 < k →
      ls.getD a [] ∈ (ls.drop a).take k := by
  induction ls with
  | nil => intro a k ha _; simp at ha
  | cons x xs ih =>
    intro a k ha hk
    cases a with
    | zero =>
      cases k with
      | zero => omega
      | succ k => simp
    | succ a =>
      have := ih a k (by simpa using Nat.lt_of_succ_lt_succ ha) hk
      simpa using this

/-- Example file whose last start-marker line is the file's first line. -/
def exStartFirst : List (List Char) := ["d=\"M 0 0\n".toList, "z\"/>\n".toList]

/-- Example file with no start marker and no end marker. -/
def exNoMarkers : List (List Char) := ["<svg>\n".toList, "</svg>\n".toList]

/-- Example file whose last end-marker line precedes its last start-marker line. -/
def exEndFirst : List (List Char) := ["z\" first\n".toList, "d=\"M later\n".toList]

/-- Example well-formed file: last start marker on line 1, last end marker on line 2. -/
def exGood : List (List Char) :=
  ["<svg>\n".toList, "<path d=\"M 0 0\n".toList, "z\"/>\n".toList, "</svg>\n".toList]

/-- Claim C1 (amended): for a well-formed asset whose last start-marker line
is not the file's first line and whose last end-marker line is not strictly
before its last start-marker line, `get_path` returns a non-empty string
equal to the lines from the last start-marker line through the last
end-marker line, inclusive, joined with every newline replaced by a single
space, and prints no diagnostic. -/
theorem get_path_last_window (n : ℕ) (ls : List (List Char)) (a b : ℕ)
    (ha : lastIdxWhere (containsSub START) ls = some a)
    (hb : lastIdxWhere (containsSub ENDM) ls = some b)
    (ha0 : a ≠ 0) (hab : a ≤ b) :
    (get_path n ls).1 = ((ls.drop a).take (b + 1 - a)).join.map collapseNL ∧
    (get_path n ls).1 ≠ [] ∧ (get_path n ls).2 = [] := by
  have hval : get_path n ls =
      (((ls.drop a).take (b + 1 - a)).join.map collapseNL, []) := by
    simp only [get_path, scanFile_start ls ha, scanFile_end ls hb,
      scanFile_p_lines ls]
    rw [if_pos ⟨ha0, Nat.succ_ne_zero b⟩]
  refine ⟨by rw [hval], ?_, by rw [hval]⟩
  rw [hval]
  obtain ⟨halen, hpa⟩ := lastIdxWhere_spec ha
  have hmem : ls.getD a [] ∈ (ls.drop a).take (b + 1 - a) :=
    getD_mem_take_drop ls a (b + 1 - a) halen (by omega)
  have hinf : START <:+: ls.getD a [] := of_decide_eq_true hpa
  have hne : ls.getD a [] ≠ [] := by
    intro hnil
    rw [hnil] at hinf
    obtain ⟨s, t, hst⟩ := hinf
    have h1 : s ++ START = [] := (List.append_eq_nil.mp hst).1
    have h2 : START = [] := (List.append_eq_nil.mp h1).2
    exact absurd h2 (by decide)
  intro hcon
  rw [List.map_eq_nil] at hcon
  have := List.join_eq_nil_iff.mp hcon _ hmem
  exact hne this

/-- Claim C1 counterexample: a well-formed asset (both markers present)
whose last start-marker line is the file's first line; `get_path` returns
the empty string rather than a non-empty one. -/
theorem get_path_last_window_cex :
    (∃ l ∈ exStartFirst, START <:+: l) ∧ (∃ l ∈ exStartFirst, ENDM <:+: l) ∧
    (get_path 1 exStartFirst).1 = [] := by decide

/-- Claim C1 witness: on the concrete file `exGood` (last start marker on
line 1, last end marker on line 2) the amended statement evaluates as
claimed. -/
theorem get_path_last_window_witness :
    (get_path 1 exGood).1 = ((exGood.drop 1).take (2 + 1 - 1)).join.map collapseNL ∧
    (get_path 1 exGood).1 ≠ [] ∧ (get_path 1 exGood).2 = [] :=
  get_path_last_window 1 exGood 1 2 (by decide) (by decide) (by decide) (by decide)

/-- Claim C5: for an asset that contains no start marker and no end marker,
`get_path` returns normally (no `FrameAssetUnavailable` failure) with the
empty string and exactly one diagnostic, and that diagnostic names the
asset. -/
theorem get_path_no_markers (fsys : ℕ → Option (List (List Char))) (n : ℕ)
    (ls : List (List Char)) (hfs : fsys n = some ls)
    (h : ∀ l ∈ ls, ¬ (START <:+: l) ∧ ¬ (ENDM <:+: l)) :
    get_pathF fsys n = some ([], [diagMsg n]) ∧
    (toString n).toList <:+: diagMsg n := by
  have hS : lastIdxWhere (containsSub START) ls = none :=
    lastIdxWhere_eq_none.mpr fun l hl => by simp [containsSub, (h l hl).1]
  constructor
  · simp only [get_pathF, hfs]
    simp only [get_path, scanFile_start_none ls hS]
    simp
  · exact ⟨"Path data not found for ".toList ++ svg_dir ++ "/".toList,
      ".svg".toList, by simp [diagMsg, List.append_assoc]⟩

/-- Claim C5 witness: concrete no-marker asset `exNoMarkers` at frame 7. -/
theorem get_path_no_markers_witness :
    get_pathF (fun _ => some exNoMarkers) 7 = some ([], [diagMsg 7]) ∧
    (toString 7).toList <:+: diagMsg 7 :=
  get_path_no_markers (fun _ => some exNoMarkers) 7 exNoMarkers rfl (by decide)

/-- Claim C9: when the last start-marker line is the first line of the file
(index 0), the sentinel collision makes `get_path` return the empty string
and print the not-found diagnostic even though both markers are present. -/
theorem get_path_sentinel_zero (n : ℕ) (ls : List (List Char))
    (ha : lastIdxWhere (containsSub START) ls = some 0)
    (_hb : ∃ l ∈ ls, ENDM <:+: l) :
    get_path n ls = ([], [diagMsg n]) := by
  simp only [get_path, scanFile_start ls ha]
  simp

/-- Claim C9 witness: concrete file with the start marker on line 0 and the
end marker on line 1. -/
theorem get_path_sentinel_zero_witness :
    get_path 3 exStartFirst = ([], [diagMsg 3]) :=
  get_path_sentinel_zero 3 exStartFirst (by decide) (by decide)

/-- Claim C10: when both markers are present, the last start-marker line is
not the first line, and the last end-marker line lies strictly before the
last start-marker line, `get_path` returns the empty string and prints no
diagnostic at all. -/
theorem get_path_empty_window (n : ℕ) (ls : List (List Char)) (a b : ℕ)
    (ha : lastIdxWhere (containsSub START) ls = some a)
    (hb : lastIdxWhere (containsSub ENDM) ls = some b)
    (ha0 : a ≠ 0) (hba : b < a) :
    get_path n ls = ([], []) := by
  simp only [get_path, scanFile_start ls ha, scanFile_end ls hb,
    scanFile_p_lines ls]
  rw [if_pos ⟨ha0, Nat.succ_ne_zero b⟩]
  have h0 : b + 1 - a = 0 := by omega
  simp [h0]

/-- Claim C10 witness: concrete file with the end marker on line 0 and the
start marker on line 1. -/
theorem get_path_empty_window_witness :
    get_path 2 exEndFirst = ([], []) :=
  get_path_empty_window 2 exEndFirst 1 0 (by decide) (by decide)
    (by decide) (by decide)

/-- One lowercase hexadecimal digit, as used by Python's `\uXXXX` escapes. -/
def hexDigit (n : ℕ) : Char :=
  if n < 10 then Char.ofNat ('0'.toNat + n) else Char.ofNat ('a'.toNat + (n - 10))

/-- A `\uXXXX` escape for one 16-bit code unit. -/
def uEsc (n : ℕ) : List Char :=
  ['\\', 'u', hexDigit (n / 4096 % 16), hexDigit (n / 256 % 16),
   hexDigit (n / 16 % 16), hexDigit (n % 16)]

/-- Escaping of one character inside a JSON string literal as performed by
`json.dumps` with its default `ensure_ascii=True`: two-character escapes for
the quote, the backslash and the common control characters, `\uXXXX` for the
remaining control characters and for all non-ASCII characters (a surrogate
pair for code points beyond the basic multilingual plane), and the character
itself otherwise. -/
def jsonEscChar (c : Char) : List Char :=
  if c = '"' then ['\\', '"']
  else if c = '\\' then ['\\', '\\']
  else if c = '\n' then ['\\', 'n']
  else if c = '\r' then ['\\', 'r']
  else if c = '\t' then ['\\', 't']
  else if c.toNat = 8 then ['\\', 'b']
  else if c.toNat = 12 then ['\\', 'f']
  else if c.toNat < 32 ∨ 126 < c.toNat then
    if c.toNat < 65536 then uEsc c.toNat
    else uEsc (55296 + (c.toNat - 65536) / 1024) ++
         uEsc (56320 + (c.toNat - 65536) % 1024)
  else [c]

/-- The JSON string literal encoding the character list `p`. -/
def jsonStringLit (p : List Char) : List Char :=
  '"' :: ((p.map jsonEscChar).join ++ ['"'])

/-- The serialization produced by `json.dumps` of the one-key object mapping
`frame` to the string `p`. -/
def jsonFrame (p : List Char) : List Char :=
  "\x7b\"frame\": ".toList ++ jsonStringLit p ++ "\x7d".toList

/-- The exact text yielded per frame by `respond_to_client`: the f-string
consisting of `id: 1`, a newline, `data: `, the JSON payload, a newline,
`event: online`, and two final newlines. -/
def pyEvent (p : List Char) : List Char :=
  "id: 1\ndata: ".toList ++ jsonFrame p ++ "\nevent: online\n\n".toList

/-- The frame rate (`fps = 24`). -/
def fps : ℕ := 24

/-- Seconds per frame (`spf = 1/fps`). -/
def spf : ℚ := 1 / (fps : ℚ)

/-- The mutable state driving the streaming loop: `frame`, `begin` and
`calc_time` mirror the module globals of those names; `clk` indexes the
next unread value of the `time.time()` stream. -/
structure PacingState where
  frame : ℕ
  begin : ℚ
  calc_time : ℚ
  clk : ℕ

/-- The pacing step executed after each emission: `frametime` is the first
clock reading minus `begin`, then `begin` is set to a second clock reading,
then `calc_time` is increased by `frametime - spf`; the third component is
the sleep decision, `some spf` exactly when the updated `calc_time` is
below `spf` (the loop then calls `time.sleep(spf)`) and `none` otherwise
(no sleep at all this cycle). -/
def pacingUpdate (begin calc_time now1 now2 : ℚ) : ℚ × ℚ × Option ℚ :=
  let frametime := now1 - begin
  let calc2 := calc_time + (frametime - spf)
  (now2, calc2, if calc2 < spf then some spf else none)

/-- Observable actions of one streaming session, in order: a Frame Store
read, a pushed event carrying its frame number and full text, a sleep with
its duration, normal termination of the generator (Closed), termination by
a failed push (Aborted: the transport closes the generator at the yield,
so nothing after that yield runs), and termination by the uncaught
exception of a missing asset (FrameAssetUnavailable). -/
inductive Ev where
  | read : ℕ → Ev
  | emit : ℕ → List Char → Ev
  | sleep : ℚ → Ev
  | close : Ev
  | abort : Ev
  | crash : Ev
deriving DecidableEq

/-- The generator `respond_to_client`, with `fuel` bounding the number of
remaining loop iterations; the wrapper `session` passes the exact bound
`last_frame - frame`, under which running out of fuel coincides with the
loop condition `frame < last_frame` turning false.  Each iteration reads
the current frame's asset (the session crashes if it is absent), yields
the event text (the session aborts right at the yield if the push fails,
so the frame increment, pacing update and sleep of that iteration never
run), increments `frame`, runs the pacing update, and sleeps exactly when
the update says so. -/
def sessionGo (last_frame : ℕ) (fsys : ℕ → Option (List (List Char)))
    (pushOk : ℕ → Bool) (clock : ℕ → ℚ) :
    ℕ → PacingState → List Ev × PacingState
  | 0, st => ([Ev.close], st)
  | fuel + 1, st =>
    if st.frame < last_frame then
      match get_pathF fsys st.frame with
      | none => ([Ev.read st.frame, Ev.crash], st)
      | some pr =>
        if pushOk st.frame then
          let pu := pacingUpdate st.begin st.calc_time
            (clock st.clk) (clock (st.clk + 1))
          let r := sessionGo last_frame fsys pushOk clock fuel
            ⟨st.frame + 1, pu.1, pu.2.1, st.clk + 2⟩
          (Ev.read st.frame :: Ev.emit st.frame (pyEvent pr.1) ::
            ((match pu.2.2 with
              | some d => [Ev.sleep d]
              | none => []) ++ r.1), r.2)
        else
          ([Ev.read st.frame, Ev.emit st.frame (pyEvent pr.1), Ev.abort], st)
    else ([Ev.close], st)

/-- One full run of the generator from state `st`. -/
def session (last_frame : ℕ) (fsys : ℕ → Option (List (List Char)))
    (pushOk : ℕ → Bool) (clock : ℕ → ℚ) (st : PacingState) :
    List Ev × PacingState :=
  sessionGo last_frame fsys pushOk clock (last_frame - st.frame) st

/-- Frame numbers of the pushed events of a trace, in order. -/
def emits (t : List Ev) : List ℕ :=
  t.filterMap fun e =>
    match e with
    | Ev.emit n _ => some n
    | _ => none

/-- Frame numbers of the Frame Store reads of a trace, in order. -/
def reads (t : List Ev) : List ℕ :=
  t.filterMap fun e =>
    match e with
    | Ev.read n => some n
    | _ => none

theorem mem_reads {t : List Ev} {j : ℕ} (h : Ev.read j ∈ t) : j ∈ reads t := by
  simp only [reads, List.mem_filterMap]
  exact ⟨Ev.read j, h, rfl⟩

theorem mem_emits {t : List Ev} {j : ℕ} {p : List Char}
    (h : Ev.emit j p ∈ t) : j ∈ emits t := by
  simp only [emits, List.mem_filterMap]
  exact ⟨Ev.emit j p, h, rfl⟩

theorem emits_cons_read (n : ℕ) (t : List Ev) :
    emits (Ev.read n :: t) = emits t := by simp [emits]

theorem emits_cons_emit (n : ℕ) (p : List Char) (t : List Ev) :
    emits (Ev.emit n p :: t) = n :: emits t := by simp [emits]

theorem reads_cons_read (n : ℕ) (t : List Ev) :
    reads (Ev.read n :: t) = n :: reads t := by simp [reads]

theorem reads_cons_emit (n : ℕ) (p : List Char) (t : List Ev) :
    reads (Ev.emit n p :: t) = reads t := by simp [reads]

theorem emits_sleeps (o : Option ℚ) (t : List Ev) :
    emits ((match o with | some d => [Ev.sleep d] | none => []) ++ t) =
      emits t := by
  cases o <;> simp [emits]

theorem reads_sleeps (o : Option ℚ) (t : List Ev) :
    reads ((match o with | some d => [Ev.sleep d] | none => []) ++ t) =
      reads t := by
  cases o <;> simp [reads]

theorem sessionGo_run (last_frame : ℕ) (fsys : ℕ → Option (List (List Char)))
    (pushOk : ℕ → Bool) (clock : ℕ → ℚ) :
    ∀ (fuel : ℕ) (st : PacingState),
      last_frame - st.frame ≤ fuel →
      (∀ j, st.frame ≤ j → j < last_frame → (fsys j).isSome) →
      (∀ j, st.frame ≤ j → j < last_frame → pushOk j = true) →
      emits (sessionGo last_frame fsys pushOk clock fuel st).1 =
        List.range' st.frame (last_frame - st.frame) ∧
      reads (sessionGo last_frame fsys pushOk clock fuel st).1 =
        List.range' st.frame (last_frame - st.frame) ∧
      (∃ t, (sessionGo last_frame fsys pushOk clock fuel st).1 =
        t ++ [Ev.close]) ∧
      (sessionGo last_frame fsys pushOk clock fuel st).2.frame =
        max st.frame last_frame := by
  intro fuel
  induction fuel with
  | zero =>
    intro st hfuel _ _
    have hle : last_frame ≤ st.frame := by omega
    have h0 : last_frame - st.frame = 0 := by omega
    refine ⟨?_, ?_, ⟨[], rfl⟩, ?_⟩
    · simp [sessionGo, emits, h0]
    · simp [sessionGo, reads, h0]
    · simp only [sessionGo]
      exact (Nat.max_eq_left hle).symm
  | succ fuel ih =>
    intro st hfuel hfs hpush
    by_cases h : st.frame < last_frame
    · obtain ⟨ls, hls⟩ := Option.isSome_iff_exists.mp (hfs st.frame le_rfl h)
      have hgp : get_pathF fsys st.frame = some (get_path st.frame ls) := by
        simp [get_pathF, hls]
      have hpk : pushOk st.frame = true := hpush st.frame le_rfl h
      have hsess : sessionGo last_frame fsys pushOk clock (fuel + 1) st =
          (Ev.read st.frame ::
             Ev.emit st.frame (pyEvent (get_path st.frame ls).1) ::
            ((match (pacingUpdate st.begin st.calc_time (clock st.clk)
                (clock (st.clk + 1))).2.2 with
              | some d => [Ev.sleep d]
              | none => []) ++
             (sessionGo last_frame fsys pushOk clock fuel
               ⟨st.frame + 1,
                (pacingUpdate st.begin st.calc_time (clock st.clk)
                  (clock (st.clk + 1))).1,
                (pacingUpdate st.begin st.calc_time (clock st.clk)
                  (clock (st.clk + 1))).2.1,
                st.clk + 2⟩).1),
           (sessionGo last_frame fsys pushOk clock fuel
             ⟨st.frame + 1,
              (pacingUpdate st.begin st.calc_time (clock st.clk)
                (clock (st.clk + 1))).1,
              (pacingUpdate st.begin st.calc_time (clock st.clk)
                (clock (st.clk + 1))).2.1,
              st.clk + 2⟩).2) := by
        simp only [sessionGo]
        rw [if_pos h, hgp, hpk]
        simp
      obtain ⟨he, hr, ⟨t', ht'⟩, hfin⟩ :=
        ih ⟨st.frame + 1,
            (pacingUpdate st.begin st.calc_time (clock st.clk)
              (clock (st.clk + 1))).1,
            (pacingUpdate st.begin st.calc_time (clock st.clk)
              (clock (st.clk + 1))).2.1,
            st.clk + 2⟩
          (by simp only []; omega)
          (fun j hj hlt => hfs j (le_trans (Nat.le_succ st.frame) hj) hlt)
          (fun j hj hlt => hpush j (le_trans (Nat.le_succ st.frame) hj) hlt)
      have hn : last_frame - st.frame = (last_frame - (st.frame + 1)) + 1 := by
        omega
      refine ⟨?_, ?_, ?_, ?_⟩
      · rw [hsess, emits_cons_read, emits_cons_emit, emits_sleeps, he]
        rw [hn, List.range'_succ]
      · rw [hsess, reads_cons_read, reads_cons_emit, reads_sleeps, hr]
        rw [hn, List.range'_succ]
      · refine ⟨Ev.read st.frame ::
          Ev.emit st.frame (pyEvent (get_path st.frame ls).1) ::
          ((match (pacingUpdate st.begin st.calc_time (clock st.clk)
              (clock (st.clk + 1))).2.2 with
            | some d => [Ev.sleep d]
            | none => []) ++ t'), ?_⟩
        rw [hsess, ht']
        simp [List.append_assoc]
      · rw [hsess]
        rw [hfin]
        rw [Nat.max_eq_right (by omega : st.frame + 1 ≤ last_frame),
          Nat.max_eq_right (Nat.le_of_lt h)]
    · have hle : last_frame ≤ st.frame := by omega
      have h0 : last_frame - st.frame = 0 := by omega
      have hsess : sessionGo last_frame fsys pushOk clock (fuel + 1) st =
          ([Ev.close], st) := by
        simp only [sessionGo]
        rw [if_neg h]
      refine ⟨?_, ?_, ⟨[], by rw [hsess]; simp⟩, ?_⟩
      · rw [hsess]; simp [emits, h0]
      · rw [hsess]; simp [reads, h0]
      · rw [hsess]
        exact (Nat.max_eq_left hle).symm

/-- Claim C2: a session started with `last_frame = N` and a freshly
initialized pacing state (frame 1, zero debt), with every asset it needs
present and every push succeeding, emits exactly N-1 events, for frames 1
through N-1 in strictly increasing order with none skipped or repeated,
never reads frame N from the Frame Store, and then closes. -/
theorem session_fresh_emits (N : ℕ) (fsys : ℕ → Option (List (List Char)))
    (clock : ℕ → ℚ) (b : ℚ) (c : ℕ)
    (hfs : ∀ j, 1 ≤ j → j < N → (fsys j).isSome) :
    emits (session N fsys (fun _ => true) clock ⟨1, b, 0, c⟩).1 =
      List.range' 1 (N - 1) ∧
    (emits (session N fsys (fun _ => true) clock ⟨1, b, 0, c⟩).1).length =
      N - 1 ∧
    Ev.read N ∉ (session N fsys (fun _ => true) clock ⟨1, b, 0, c⟩).1 ∧
    ∃ t, (session N fsys (fun _ => true) clock ⟨1, b, 0, c⟩).1 =
      t ++ [Ev.close] := by
  have hses : session N fsys (fun _ => true) clock ⟨1, b, 0, c⟩ =
      sessionGo N fsys (fun _ => true) clock (N - 1) ⟨1, b, 0, c⟩ := rfl
  obtain ⟨he, hr, hex, -⟩ := sessionGo_run N fsys (fun _ => true) clock
    (N - 1) ⟨1, b, 0, c⟩ le_rfl hfs (fun _ _ _ => rfl)
  refine ⟨by rw [hses]; exact he, ?_, ?_, by rw [hses]; exact hex⟩
  · rw [hses]
    have : emits (sessionGo N fsys (fun _ => true) clock (N - 1)
        ⟨1, b, 0, c⟩).1 = List.range' 1 (N - 1) := he
    rw [this, List.length_range']
  · intro hmem
    rw [hses] at hmem
    have hm := mem_reads hmem
    rw [hr, List.mem_range'_1] at hm
    omega

/-- Claim C2 witness: a concrete fresh session with `last_frame = 3`, all
assets present and all pushes succeeding. -/
theorem session_fresh_emits_witness :
    emits (session 3 (fun _ => some exGood) (fun _ => true)
      (fun _ => (0 : ℚ)) ⟨1, 0, 0, 0⟩).1 = List.range' 1 (3 - 1) ∧
    (emits (session 3 (fun _ => some exGood) (fun _ => true)
      (fun _ => (0 : ℚ)) ⟨1, 0, 0, 0⟩).1).length = 3 - 1 ∧
    Ev.read 3 ∉ (session 3 (fun _ => some exGood) (fun _ => true)
      (fun _ => (0 : ℚ)) ⟨1, 0, 0, 0⟩).1 ∧
    ∃ t, (session 3 (fun _ => some exGood) (fun _ => true)
      (fun _ => (0 : ℚ)) ⟨1, 0, 0, 0⟩).1 = t ++ [Ev.close] :=
  session_fresh_emits 3 (fun _ => some exGood) (fun _ => (0 : ℚ)) 0 0
    (fun _ _ _ => rfl)

theorem sessionGo_abort (last_frame : ℕ)
    (fsys : ℕ → Option (List (List Char))) (pushOk : ℕ → Bool)
    (clock : ℕ → ℚ) (k : ℕ) :
    ∀ (fuel : ℕ) (st : PacingState),
      last_frame - st.frame ≤ fuel →
      st.frame ≤ k → k < last_frame →
      (∀ j, st.frame ≤ j → j < k → (fsys j).isSome ∧ pushOk j = true) →
      (fsys k).isSome → pushOk k = false →
      ∃ t p, (sessionGo last_frame fsys pushOk clock fuel st).1 =
          t ++ [Ev.read k, Ev.emit k p, Ev.abort] ∧
        emits (sessionGo last_frame fsys pushOk clock fuel st).1 =
          List.range' st.frame (k + 1 - st.frame) ∧
        reads (sessionGo last_frame fsys pushOk clock fuel st).1 =
          List.range' st.frame (k + 1 - st.frame) := by
  intro fuel
  induction fuel with
  | zero => intro st hfuel hk1 hk2 _ _ _; omega
  | succ fuel ih =>
    intro st hfuel hk1 hk2 hpre hka hkf
    have h : st.frame < last_frame := by omega
    by_cases hek : st.frame = k
    · obtain ⟨ls, hls⟩ := Option.isSome_iff_exists.mp hka
      have hgp : get_pathF fsys st.frame = some (get_path st.frame ls) := by
        rw [hek]
        simp [get_pathF, hls]
      have hsess : sessionGo last_frame fsys pushOk clock (fuel + 1) st =
          ([Ev.read st.frame,
            Ev.emit st.frame (pyEvent (get_path k ls).1), Ev.abort], st) := by
        simp only [sessionGo]
        rw [if_pos h, hgp, hek, hkf]
        simp
      refine ⟨[], pyEvent (get_path k ls).1, ?_, ?_, ?_⟩
      · rw [hsess, hek]
        simp
      · rw [hsess]
        have h1 : k + 1 - st.frame = 1 := by omega
        rw [h1, hek]
        simp [emits, List.range'_one]
      · rw [hsess]
        have h1 : k + 1 - st.frame = 1 := by omega
        rw [h1, hek]
        simp [reads, List.range'_one]
    · have hltk : st.frame < k := by omega
      obtain ⟨hfsf, hpkf⟩ := hpre st.frame le_rfl hltk
      obtain ⟨ls, hls⟩ := Option.isSome_iff_exists.mp hfsf
      have hgp : get_pathF fsys st.frame = some (get_path st.frame ls) := by
        simp [get_pathF, hls]
      have hsess : sessionGo last_frame fsys pushOk clock (fuel + 1) st =
          (Ev.read st.frame ::
             Ev.emit st.frame (pyEvent (get_path st.frame ls).1) ::
            ((match (pacingUpdate st.begin st.calc_time (clock st.clk)
                (clock (st.clk + 1))).2.2 with
              | some d => [Ev.sleep d]
              | none => []) ++
             (sessionGo last_frame fsys pushOk clock fuel
               ⟨st.frame + 1,
                (pacingUpdate st.begin st.calc_time (clock st.clk)
                  (clock (st.clk + 1))).1,
                (pacingUpdate st.begin st.calc_time (clock st.clk)
                  (clock (st.clk + 1))).2.1,
                st.clk + 2⟩).1),
           (sessionGo last_frame fsys pushOk clock fuel
             ⟨st.frame + 1,
              (pacingUpdate st.begin st.calc_time (clock st.clk)
                (clock (st.clk + 1))).1,
              (pacingUpdate st.begin st.calc_time (clock st.clk)
                (clock (st.clk + 1))).2.1,
              st.clk + 2⟩).2) := by
        simp only [sessionGo]
        rw [if_pos h, hgp, hpkf]
        simp
      obtain ⟨t', p', ht', he, hr⟩ :=
        ih ⟨st.frame + 1,
            (pacingUpdate st.begin st.calc_time (clock st.clk)
              (clock (st.clk + 1))).1,
            (pacingUpdate st.begin st.calc_time (clock st.clk)
              (clock (st.clk + 1))).2.1,
            st.clk + 2⟩
          (by simp only []; omega) (by simp only []; omega) hk2
          (fun j hj hlt => hpre j (le_trans (Nat.le_succ st.frame) hj) hlt)
          hka hkf
      have hn : k + 1 - st.frame = (k + 1 - (st.frame + 1)) + 1 := by omega
      refine ⟨Ev.read st.frame ::
          Ev.emit st.frame (pyEvent (get_path st.frame ls).1) ::
          ((match (pacingUpdate st.begin st.calc_time (clock st.clk)
              (clock (st.clk + 1))).2.2 with
            | some d => [Ev.sleep d]
            | none => []) ++ t'), p', ?_, ?_, ?_⟩
      · rw [hsess, ht']
        simp [List.append_assoc]
      · rw [hsess, emits_cons_read, emits_cons_emit, emits_sleeps, he]
        rw [hn, List.range'_succ]
      · rw [hsess, reads_cons_read, reads_cons_emit, reads_sleeps, hr]
        rw [hn, List.range'_succ]

/-- Claim C6: if every push before frame k succeeds and the push of frame
k's event fails (the client disconnected), the session aborts right at that
push: the trace ends with the read and emission of frame k followed
immediately by Abort, so there are no further Frame Store reads, no sleeps,
and no emissions for any frame greater than k. -/
theorem session_abort_stops (N : ℕ) (fsys : ℕ → Option (List (List Char)))
    (pushOk : ℕ → Bool) (clock : ℕ → ℚ) (b : ℚ) (c k : ℕ)
    (h1k : 1 ≤ k) (hkN : k < N)
    (hpre : ∀ j, 1 ≤ j → j < k → (fsys j).isSome ∧ pushOk j = true)
    (hka : (fsys k).isSome) (hkf : pushOk k = false) :
    ∃ t p, (session N fsys pushOk clock ⟨1, b, 0, c⟩).1 =
        t ++ [Ev.read k, Ev.emit k p, Ev.abort] ∧
      (∀ j, k < j → Ev.read j ∉ (session N fsys pushOk clock ⟨1, b, 0, c⟩).1) ∧
      (∀ j q, k < j →
        Ev.emit j q ∉ (session N fsys pushOk clock ⟨1, b, 0, c⟩).1) := by
  have hses : session N fsys pushOk clock ⟨1, b, 0, c⟩ =
      sessionGo N fsys pushOk clock (N - 1) ⟨1, b, 0, c⟩ := rfl
  obtain ⟨t, p, ht, he, hr⟩ := sessionGo_abort N fsys pushOk clock k (N - 1)
    ⟨1, b, 0, c⟩ le_rfl h1k hkN hpre hka hkf
  refine ⟨t, p, by rw [hses, ht], ?_, ?_⟩
  · intro j hj hmem
    rw [hses] at hmem
    have hm := mem_reads hmem
    rw [hr, List.mem_range'_1] at hm
    omega
  · intro j q hj hmem
    rw [hses] at hmem
    have hm := mem_emits hmem
    rw [he, List.mem_range'_1] at hm
    omega

/-- Claim C6 witness: a concrete session with `last_frame = 3` in which the
push of frame 2 fails. -/
theorem session_abort_stops_witness :
    ∃ t p, (session 3 (fun _ => some exGood) (fun n => decide (n < 2))
        (fun _ => (0 : ℚ)) ⟨1, 0, 0, 0⟩).1 =
        t ++ [Ev.read 2, Ev.emit 2 p, Ev.abort] ∧
      (∀ j, 2 < j → Ev.read j ∉ (session 3 (fun _ => some exGood)
        (fun n => decide (n < 2)) (fun _ => (0 : ℚ)) ⟨1, 0, 0, 0⟩).1) ∧
      (∀ j q, 2 < j → Ev.emit j q ∉ (session 3 (fun _ => some exGood)
        (fun n => decide (n < 2)) (fun _ => (0 : ℚ)) ⟨1, 0, 0, 0⟩).1) :=
  session_abort_stops 3 (fun _ => some exGood) (fun n => decide (n < 2))
    (fun _ => (0 : ℚ)) 0 0 2 (by decide) (by decide)
    (fun j h1 h2 => ⟨rfl, decide_eq_true h2⟩) rfl (by decide)

theorem sessionGo_crash (last_frame : ℕ)
    (fsys : ℕ → Option (List (List Char))) (pushOk : ℕ → Bool)
    (clock : ℕ → ℚ) (k : ℕ) :
    ∀ (fuel : ℕ) (st : PacingState),
      last_frame - st.frame ≤ fuel →
      st.frame ≤ k → k < last_frame →
      (∀ j, st.frame ≤ j → j < k → (fsys j).isSome ∧ pushOk j = true) →
      fsys k = none →
      ∃ t, (sessionGo last_frame fsys pushOk clock fuel st).1 =
          t ++ [Ev.read k, Ev.crash] ∧
        emits (sessionGo last_frame fsys pushOk clock fuel st).1 =
          List.range' st.frame (k - st.frame) ∧
        reads (sessionGo last_frame fsys pushOk clock fuel st).1 =
          List.range' st.frame (k + 1 - st.frame) ∧
        Ev.close ∉ (sessionGo last_frame fsys pushOk clock fuel st).1 := by
  intro fuel
  induction fuel with
  | zero => intro st hfuel hk1 hk2 _ _; omega
  | succ fuel ih =>
    intro st hfuel hk1 hk2 hpre hmiss
    have h : st.frame < last_frame := by omega
    by_cases hek : st.frame = k
    · have hgp : get_pathF fsys st.frame = none := by
        rw [hek]
        simp [get_pathF, hmiss]
      have hsess : sessionGo last_frame fsys pushOk clock (fuel + 1) st =
          ([Ev.read st.frame, Ev.crash], st) := by
        simp only [sessionGo]
        rw [if_pos h, hgp]
      refine ⟨[], ?_, ?_, ?_, ?_⟩
      · rw [hsess, hek]
        simp
      · rw [hsess]
        have h0 : k - st.frame = 0 := by omega
        rw [h0]
        simp [emits]
      · rw [hsess]
        have h1 : k + 1 - st.frame = 1 := by omega
        rw [h1, hek]
        simp [reads, List.range'_one]
      · rw [hsess]
        simp
    · have hltk : st.frame < k := by omega
      obtain ⟨hfsf, hpkf⟩ := hpre st.frame le_rfl hltk
      obtain ⟨ls, hls⟩ := Option.isSome_iff_exists.mp hfsf
      have hgp : get_pathF fsys st.frame = some (get_path st.frame ls) := by
        simp [get_pathF, hls]
      have hsess : sessionGo last_frame fsys pushOk clock (fuel + 1) st =
          (Ev.read st.frame ::
             Ev.emit st.frame (pyEvent (get_path st.frame ls).1) ::
            ((match (pacingUpdate st.begin st.calc_time (clock st.clk)
                (clock (st.clk + 1))).2.2 with
              | some d => [Ev.sleep d]
              | none => []) ++
             (sessionGo last_frame fsys pushOk clock fuel
               ⟨st.frame + 1,
                (pacingUpdate st.begin st.calc_time (clock st.clk)
                  (clock (st.clk + 1))).1,
                (pacingUpdate st.begin st.calc_time (clock st.clk)
                  (clock (st.clk + 1))).2.1,
                st.clk + 2⟩).1),
           (sessionGo last_frame fsys pushOk clock fuel
             ⟨st.frame + 1,
              (pacingUpdate st.begin st.calc_time (clock st.clk)
                (clock (st.clk + 1))).1,
              (pacingUpdate st.begin st.calc_time (clock st.clk)
                (clock (st.clk + 1))).2.1,
              st.clk + 2⟩).2) := by
        simp only [sessionGo]
        rw [if_pos h, hgp, hpkf]
        simp
      obtain ⟨t', ht', he, hr, hc⟩ :=
        ih ⟨st.frame + 1,
            (pacingUpdate st.begin st.calc_time (clock st.clk)
              (clock (st.clk + 1))).1,
            (pacingUpdate st.begin st.calc_time (clock st.clk)
              (clock (st.clk + 1))).2.1,
            st.clk + 2⟩
          (by simp only []; omega) (by simp only []; omega) hk2
          (fun j hj hlt => hpre j (le_trans (Nat.le_succ st.frame) hj) hlt)
          hmiss
      refine ⟨Ev.read st.frame ::
          Ev.emit st.frame (pyEvent (get_path st.frame ls).1) ::
          ((match (pacingUpdate st.begin st.calc_time (clock st.clk)
              (clock (st.clk + 1))).2.2 with
            | some d => [Ev.sleep d]
            | none => []) ++ t'), ?_, ?_, ?_, ?_⟩
      · rw [hsess, ht']
        simp [List.append_assoc]
      · rw [hsess, emits_cons_read, emits_cons_emit, emits_sleeps, he]
        have hn : k - st.frame = (k - (st.frame + 1)) + 1 := by omega
        rw [hn, List.range'_succ]
      · rw [hsess, reads_cons_read, reads_cons_emit, reads_sleeps, hr]
        have hn : k + 1 - st.frame = (k + 1 - (st.frame + 1)) + 1 := by omega
        rw [hn, List.range'_succ]
      · rw [hsess]
        intro hmem
        rcases List.mem_cons.mp hmem with h1 | hmem
        · exact Ev.noConfusion h1
        rcases List.mem_cons.mp hmem with h1 | hmem
        · exact Ev.noConfusion h1
        rcases List.mem_append.mp hmem with h1 | h1
        · revert h1
          cases (pacingUpdate st.begin st.calc_time (clock st.clk)
              (clock (st.clk + 1))).2.2 <;> simp
        · exact hc h1

/-- Claim C7: when the asset for frame k is missing or unreadable, the
Frame Store call does not return a value (`FrameAssetUnavailable`: the
`open` call raises), and that failure terminates the session rather than
being recovered: the trace ends with the failed read and the uncaught
exception, frame k is never emitted, and the session never reaches the
normal Closed termination. -/
theorem session_crash_on_missing (N : ℕ)
    (fsys : ℕ → Option (List (List Char))) (pushOk : ℕ → Bool)
    (clock : ℕ → ℚ) (b : ℚ) (c k : ℕ)
    (h1k : 1 ≤ k) (hkN : k < N)
    (hpre : ∀ j, 1 ≤ j → j < k → (fsys j).isSome ∧ pushOk j = true)
    (hmiss : fsys k = none) :
    get_pathF fsys k = none ∧
    ∃ t, (session N fsys pushOk clock ⟨1, b, 0, c⟩).1 =
        t ++ [Ev.read k, Ev.crash] ∧
      (∀ q, Ev.emit k q ∉ (session N fsys pushOk clock ⟨1, b, 0, c⟩).1) ∧
      Ev.close ∉ (session N fsys pushOk clock ⟨1, b, 0, c⟩).1 := by
  have hses : session N fsys pushOk clock ⟨1, b, 0, c⟩ =
      sessionGo N fsys pushOk clock (N - 1) ⟨1, b, 0, c⟩ := rfl
  obtain ⟨t, ht, he, hr, hc⟩ := sessionGo_crash N fsys pushOk clock k (N - 1)
    ⟨1, b, 0, c⟩ le_rfl h1k hkN hpre hmiss
  refine ⟨by simp [get_pathF, hmiss], t, by rw [hses, ht], ?_,
    by rw [hses]; exact hc⟩
  intro q hmem
  rw [hses] at hmem
  have hm := mem_emits hmem
  rw [he, List.mem_range'_1] at hm
  omega

/-- Claim C7 witness: a concrete session with `last_frame = 4` whose frame-2
asset is missing. -/
theorem session_crash_on_missing_witness :
    get_pathF (fun n => if n = 2 then none else some exGood) 2 = none ∧
    ∃ t, (session 4 (fun n => if n = 2 then none else some exGood)
        (fun _ => true) (fun _ => (0 : ℚ)) ⟨1, 0, 0, 0⟩).1 =
        t ++ [Ev.read 2, Ev.crash] ∧
      (∀ q, Ev.emit 2 q ∉ (session 4 (fun n => if n = 2 then none
        else some exGood) (fun _ => true) (fun _ => (0 : ℚ))
        ⟨1, 0, 0, 0⟩).1) ∧
      Ev.close ∉ (session 4 (fun n => if n = 2 then none else some exGood)
        (fun _ => true) (fun _ => (0 : ℚ)) ⟨1, 0, 0, 0⟩).1 :=
  session_crash_on_missing 4 (fun n => if n = 2 then none else some exGood)
    (fun _ => true) (fun _ => (0 : ℚ)) 0 0 2 (by decide) (by decide)
    (fun j h1 h2 => by
      have : j ≠ 2 := by omega
      simp [this])
    (by simp)

theorem pyEvent_eq (p : List Char) :
    pyEvent p = "id: 1\n".toList ++ ("data: ".toList ++ jsonFrame p ++
      "\n".toList) ++ "event: online\n".toList ++ "\n".toList := by
  have h1 : ("id: 1\ndata: ".toList : List Char) =
      "id: 1\n".toList ++ "data: ".toList := by decide
  have h2 : ("\nevent: online\n\n".toList : List Char) =
      "\n".toList ++ ("event: online\n".toList ++ "\n".toList) := by decide
  simp [pyEvent, h1, h2]

theorem pyEvent_take_id (p : List Char) :
    (pyEvent p).take 6 = "id: 1\n".toList := by
  have h6 : (6 : ℕ) = ("id: 1\n".toList : List Char).length := by decide
  rw [pyEvent_eq, h6]
  simp only [List.append_assoc]
  exact List.take_left _ _

theorem sessionGo_step_ok (last_frame : ℕ)
    (fsys : ℕ → Option (List (List Char))) (pushOk : ℕ → Bool)
    (clock : ℕ → ℚ) (fuel : ℕ) (st : PacingState)
    (pr : List Char × List (List Char))
    (h : st.frame < last_frame) (hgp : get_pathF fsys st.frame = some pr)
    (hpk : pushOk st.frame = true) :
    sessionGo last_frame fsys pushOk clock (fuel + 1) st =
      (Ev.read st.frame :: Ev.emit st.frame (pyEvent pr.1) ::
        ((match (pacingUpdate st.begin st.calc_time (clock st.clk)
            (clock (st.clk + 1))).2.2 with
          | some d => [Ev.sleep d]
          | none => []) ++
         (sessionGo last_frame fsys pushOk clock fuel
           ⟨st.frame + 1,
            (pacingUpdate st.begin st.calc_time (clock st.clk)
              (clock (st.clk + 1))).1,
            (pacingUpdate st.begin st.calc_time (clock st.clk)
              (clock (st.clk + 1))).2.1,
            st.clk + 2⟩).1),
       (sessionGo last_frame fsys pushOk clock fuel
         ⟨st.frame + 1,
          (pacingUpdate st.begin st.calc_time (clock st.clk)
            (clock (st.clk + 1))).1,
          (pacingUpdate st.begin st.calc_time (clock st.clk)
            (clock (st.clk + 1))).2.1,
          st.clk + 2⟩).2) := by
  simp only [sessionGo]
  rw [if_pos h, hgp, hpk]
  simp

theorem sessionGo_event_format (last_frame : ℕ)
    (fsys : ℕ → Option (List (List Char))) (pushOk : ℕ → Bool)
    (clock : ℕ → ℚ) :
    ∀ (fuel : ℕ) (st : PacingState) (n : ℕ) (p : List Char),
      Ev.emit n p ∈ (sessionGo last_frame fsys pushOk clock fuel st).1 →
      ∃ pr, get_pathF fsys n = some pr ∧ p = pyEvent pr.1 := by
  intro fuel
  induction fuel with
  | zero => intro st n p hmem; simp [sessionGo] at hmem
  | succ fuel ih =>
    intro st n p hmem
    by_cases h : st.frame < last_frame
    · cases hgp : get_pathF fsys st.frame with
      | none =>
        have hsess : sessionGo last_frame fsys pushOk clock (fuel + 1) st =
            ([Ev.read st.frame, Ev.crash], st) := by
          simp only [sessionGo]
          rw [if_pos h, hgp]
        rw [hsess] at hmem
        simp at hmem
      | some pr =>
        cases hpk : pushOk st.frame with
        | false =>
          have hsess : sessionGo last_frame fsys pushOk clock (fuel + 1) st =
              ([Ev.read st.frame, Ev.emit st.frame (pyEvent pr.1),
                Ev.abort], st) := by
            simp only [sessionGo]
            rw [if_pos h, hgp, hpk]
            simp
          rw [hsess] at hmem
          simp only [List.mem_cons, List.mem_singleton] at hmem
          rcases hmem with h1 | h1 | h1 | h1
          · exact Ev.noConfusion h1
          · obtain ⟨hn, hp⟩ := Ev.emit.inj h1
            exact ⟨pr, by rw [hn]; exact hgp, hp⟩
          · exact Ev.noConfusion h1
          · exact absurd h1 (by simp)
        | true =>
          rw [sessionGo_step_ok last_frame fsys pushOk clock fuel st pr
            h hgp hpk] at hmem
          rcases List.mem_cons.mp hmem with h1 | hmem
          · exact Ev.noConfusion h1
          rcases List.mem_cons.mp hmem with h1 | hmem
          · obtain ⟨hn, hp⟩ := Ev.emit.inj h1
            exact ⟨pr, by rw [hn]; exact hgp, hp⟩
          rcases List.mem_append.mp hmem with h1 | h1
          · exfalso
            revert h1
            cases (pacingUpdate st.begin st.calc_time (clock st.clk)
                (clock (st.clk + 1))).2.2 <;> simp
          · exact ih _ n p h1
    · have hsess : sessionGo last_frame fsys pushOk clock (fuel + 1) st =
          ([Ev.close], st) := by
        simp only [sessionGo]
        rw [if_neg h]
      rw [hsess] at hmem
      simp at hmem

/-- Claim C8: every pushed event of every session is exactly the three-line
text block consisting of the id line carrying the fixed identifier 1, the
data line whose content is the JSON encoding of the object mapping the key
frame to the extracted path of that frame, and the event-type line with tag
online, terminated by a blank line; in particular the first six characters
of every event text are the same fixed id line. -/
theorem session_event_format (N : ℕ) (fsys : ℕ → Option (List (List Char)))
    (pushOk : ℕ → Bool) (clock : ℕ → ℚ) (st : PacingState) (n : ℕ)
    (p : List Char)
    (hmem : Ev.emit n p ∈ (session N fsys pushOk clock st).1) :
    ∃ pr, get_pathF fsys n = some pr ∧
      p = "id: 1\n".toList ++ ("data: ".toList ++ jsonFrame pr.1 ++
        "\n".toList) ++ "event: online\n".toList ++ "\n".toList ∧
      p.take 6 = "id: 1\n".toList := by
  obtain ⟨pr, hpr, hp⟩ := sessionGo_event_format N fsys pushOk clock
    (N - st.frame) st n p hmem
  exact ⟨pr, hpr, by rw [hp, pyEvent_eq], by rw [hp, pyEvent_take_id]⟩

/-- Claim C8 witness: the event pushed for frame 1 of a concrete session. -/
theorem session_event_format_witness :
    ∃ pr, get_pathF (fun _ => some exGood) 1 = some pr ∧
      pyEvent (get_path 1 exGood).1 = "id: 1\n".toList ++
        ("data: ".toList ++ jsonFrame pr.1 ++ "\n".toList) ++
        "event: online\n".toList ++ "\n".toList ∧
      (pyEvent (get_path 1 exGood).1).take 6 = "id: 1\n".toList :=
  session_event_format 2 (fun _ => some exGood) (fun _ => true)
    (fun _ => (0 : ℚ)) ⟨1, 0, 0, 0⟩ 1 (pyEvent (get_path 1 exGood).1)
    (by
      show Ev.emit 1 (pyEvent (get_path 1 exGood).1) ∈
        (sessionGo 2 (fun _ => some exGood) (fun _ => true)
          (fun _ => (0 : ℚ)) (0 + 1) ⟨1, 0, 0, 0⟩).1
      rw [sessionGo_step_ok 2 (fun _ => some exGood) (fun _ => true)
        (fun _ => (0 : ℚ)) 0 ⟨1, 0, 0, 0⟩ (get_path 1 exGood)
        (by decide) rfl rfl]
      simp)

theorem pacingUpdate_sleep_spf {begin calc_time now1 now2 d : ℚ}
    (h : (pacingUpdate begin calc_time now1 now2).2.2 = some d) : d = spf := by
  simp only [pacingUpdate] at h
  by_cases hc : calc_time + (now1 - begin - spf) < spf
  · rw [if_pos hc] at h
    simpa using h.symm
  · rw [if_neg hc] at h
    exact absurd h (by simp)

/-- Claim C3: the pacing update run after each emission adds elapsed minus
spf to the accumulated debt, where elapsed is the first clock reading minus
the previous timestamp, and decides to sleep exactly spf seconds precisely
when the updated debt is below spf and not to sleep at all otherwise;
consequently every sleep occurring in any session trace has duration
exactly spf — never a proportional amount such as spf minus elapsed. -/
theorem pacing_debt_and_sleep :
    (∀ begin calc_time now1 now2 : ℚ,
      (pacingUpdate begin calc_time now1 now2).2.1 =
        calc_time + ((now1 - begin) - spf) ∧
      (pacingUpdate begin calc_time now1 now2).2.2 =
        (if calc_time + ((now1 - begin) - spf) < spf then some spf
         else none)) ∧
    (∀ (N : ℕ) (fsys : ℕ → Option (List (List Char))) (pushOk : ℕ → Bool)
      (clock : ℕ → ℚ) (fuel : ℕ) (st : PacingState) (d : ℚ),
      Ev.sleep d ∈ (sessionGo N fsys pushOk clock fuel st).1 → d = spf) := by
  constructor
  · intro begin calc_time now1 now2
    exact ⟨by simp [pacingUpdate], by simp [pacingUpdate]⟩
  · intro N fsys pushOk clock fuel
    induction fuel with
    | zero => intro st d hmem; simp [sessionGo] at hmem
    | succ fuel ih =>
      intro st d hmem
      by_cases h : st.frame < N
      · cases hgp : get_pathF fsys st.frame with
        | none =>
          have hsess : sessionGo N fsys pushOk clock (fuel + 1) st =
              ([Ev.read st.frame, Ev.crash], st) := by
            simp only [sessionGo]
            rw [if_pos h, hgp]
          rw [hsess] at hmem
          simp at hmem
        | some pr =>
          cases hpk : pushOk st.frame with
          | false =>
            have hsess : sessionGo N fsys pushOk clock (fuel + 1) st =
                ([Ev.read st.frame, Ev.emit st.frame (pyEvent pr.1),
                  Ev.abort], st) := by
              simp only [sessionGo]
              rw [if_pos h, hgp, hpk]
              simp
            rw [hsess] at hmem
            simp at hmem
          | true =>
            rw [sessionGo_step_ok N fsys pushOk clock fuel st pr
              h hgp hpk] at hmem
            rcases List.mem_cons.mp hmem with h1 | hmem
            · exact Ev.noConfusion h1
            rcases List.mem_cons.mp hmem with h1 | hmem
            · exact Ev.noConfusion h1
            rcases List.mem_append.mp hmem with h1 | h1
            · revert h1
              cases ho : (pacingUpdate st.begin st.calc_time (clock st.clk)
                  (clock (st.clk + 1))).2.2 with
              | none => simp
              | some d' =>
                intro h1
                have hd : d = d' := by simpa using h1
                rw [hd]
                exact pacingUpdate_sleep_spf ho
            · exact ih _ d h1
      · have hsess : sessionGo N fsys pushOk clock (fuel + 1) st =
            ([Ev.close], st) := by
          simp only [sessionGo]
          rw [if_neg h]
        rw [hsess] at hmem
        simp at hmem

/-- Claim C3 witness: the pacing equations evaluated at zero inputs, and a
concrete session trace containing a sleep, whose duration the theorem pins
to spf. -/
theorem pacing_debt_and_sleep_witness :
    ((pacingUpdate 0 0 0 0).2.1 = 0 + ((0 - 0) - spf) ∧
     (pacingUpdate 0 0 0 0).2.2 =
       (if (0 : ℚ) + ((0 - 0) - spf) < spf then some spf else none)) ∧
    spf = spf :=
  ⟨pacing_debt_and_sleep.1 0 0 0 0,
   pacing_debt_and_sleep.2 2 (fun _ => some exGood) (fun _ => true)
     (fun _ => (0 : ℚ)) (0 + 1) ⟨1, 0, 0, 0⟩ spf
     (by
       rw [sessionGo_step_ok 2 (fun _ => some exGood) (fun _ => true)
         (fun _ => (0 : ℚ)) 0 ⟨1, 0, 0, 0⟩ (get_path 1 exGood)
         (by decide) rfl rfl]
       have hpu : (pacingUpdate (0 : ℚ) 0 0 0).2.2 = some spf := by
         simp only [pacingUpdate]
         rw [if_pos (by norm_num [spf, fps])]
       simp [hpu])⟩

/-- Claim C4 counterexample: the pacing state is the module-global triple
`frame`, `begin`, `calc_time`, never re-initialized on connect.  After a
completed session with `last_frame = 2`, the global frame counter is 2,
and a second session started from that state emits nothing at all — it does
not begin again at frame 1 with zero debt. -/
theorem session_global_state_cex :
    (session 2 (fun _ => some exGood) (fun _ => true) (fun _ => (0 : ℚ))
      ⟨1, 0, 0, 0⟩).2.frame = 2 ∧
    emits (session 2 (fun _ => some exGood) (fun _ => true)
      (fun _ => (0 : ℚ))
      ((session 2 (fun _ => some exGood) (fun _ => true) (fun _ => (0 : ℚ))
        ⟨1, 0, 0, 0⟩).2)).1 = [] :=
  ⟨rfl, rfl⟩

/-- Claim C4 (amended): the pacing state is process-global and a session
never re-initializes it: a connecting client simply resumes from whatever
state earlier sessions left.  In particular, after a session that ran to
completion (assets present, pushes succeeding, started at or below
`last_frame`), the global frame counter equals `last_frame`, and a session
started afterwards immediately closes, emitting nothing, instead of
beginning again at frame 1 with zero debt. -/
theorem session_global_state (N : ℕ) (fsys : ℕ → Option (List (List Char)))
    (pushOk : ℕ → Bool) (clock : ℕ → ℚ) (st : PacingState)
    (hfs : ∀ j, st.frame ≤ j → j < N → (fsys j).isSome)
    (hpush : ∀ j, st.frame ≤ j → j < N → pushOk j = true)
    (hstart : st.frame ≤ N) :
    (session N fsys pushOk clock st).2.frame = N ∧
    session N fsys pushOk clock ((session N fsys pushOk clock st).2) =
      ([Ev.close], (session N fsys pushOk clock st).2) := by
  obtain ⟨-, -, -, hfin⟩ := sessionGo_run N fsys pushOk clock
    (N - st.frame) st le_rfl hfs hpush
  have hframe : (session N fsys pushOk clock st).2.frame = N := by
    have hses : session N fsys pushOk clock st =
        sessionGo N fsys pushOk clock (N - st.frame) st := rfl
    rw [hses, hfin]
    exact Nat.max_eq_right hstart
  refine ⟨hframe, ?_⟩
  show sessionGo N fsys pushOk clock
    (N - (session N fsys pushOk clock st).2.frame)
    ((session N fsys pushOk clock st).2) = _
  rw [hframe, Nat.sub_self]
  simp only [sessionGo]

/-- Claim C4 witness: the amended statement at a concrete completed
session with `last_frame = 2`. -/
theorem session_global_state_witness :
    (session 2 (fun _ => some exGood) (fun _ => true) (fun _ => (1 : ℚ))
      ⟨1, 0, 0, 0⟩).2.frame = 2 ∧
    session 2 (fun _ => some exGood) (fun _ => true) (fun _ => (1 : ℚ))
      ((session 2 (fun _ => some exGood) (fun _ => true) (fun _ => (1 : ℚ))
        ⟨1, 0, 0, 0⟩).2) =
      ([Ev.close], (session 2 (fun _ => some exGood) (fun _ => true)
        (fun _ => (1 : ℚ)) ⟨1, 0, 0, 0⟩).2) :=
  session_global_state 2 (fun _ => some exGood) (fun _ => true)
    (fun _ => (1 : ℚ)) ⟨1, 0, 0, 0⟩ (fun _ _ _ => rfl) (fun _ _ _ => rfl)
    (by decide)
